import Mathlib

/-!
Shallow embedding of kivy's `BoxLayout` layout core
(`kivy/uix/boxlayout.py`): the minimum-size/stretch-weight pass and the
placement pass of `_iterate_layout`, plus the `do_layout` early exit.
Sizes and coordinates are modelled with `ℚ` (exact arithmetic); the
divisions in the placement pass are modelled with `Option`, returning
`none` exactly where Python would raise `ZeroDivisionError`.
-/

namespace BoxLayout

/-- Layout orientation, the two values of the `orientation` property. -/
inductive Orient where
  | horizontal
  | vertical
deriving DecidableEq

/-- One child descriptor, as consumed by `_iterate_layout`:
`((w, h), (size_hint_x, size_hint_y), pos_hint)`.  `pos_hint` is the
insertion-ordered key/value listing of the Python dict. -/
structure Child where
  w : ℚ
  h : ℚ
  size_hint_x : Option ℚ
  size_hint_y : Option ℚ
  pos_hint : List (String × ℚ)
deriving DecidableEq

/-- The container state read by `_iterate_layout`: `self.padding`
(left, top, right, bottom), `self.spacing`, `self.orientation`,
`self.x`, `self.y`, `self.width`, `self.height`. -/
structure BoxState where
  padding_left : ℚ
  padding_top : ℚ
  padding_right : ℚ
  padding_bottom : ℚ
  spacing : ℚ
  orientation : Orient
  x : ℚ
  y : ℚ
  width : ℚ
  height : ℚ
deriving DecidableEq

/-- One yielded tuple `(index, cx, cy, w, h)` of `_iterate_layout`. -/
structure Geom where
  idx : Nat
  cx : ℚ
  cy : ℚ
  w : ℚ
  h : ℚ
deriving DecidableEq

/-- Horizontal padding `padding_x = padding_left + padding_right`. -/
def padding_x (b : BoxState) : ℚ := b.padding_left + b.padding_right

/-- Vertical padding `padding_y = padding_top + padding_bottom`. -/
def padding_y (b : BoxState) : ℚ := b.padding_top + b.padding_bottom

/-- The horizontal-orientation minimum/weight loop of `_iterate_layout`:
running accumulators `(minimum_size_x, minimum_size_y, stretch_weight_x)`
updated per child (`if shw is None: minimum_size_x += w else:
stretch_weight_x += shw; if shh is None: minimum_size_y = max(...)`). -/
def minAccH : ℚ → ℚ → ℚ → List Child → ℚ × ℚ × ℚ
  | msx, msy, swx, [] => (msx, msy, swx)
  | msx, msy, swx, c :: rest =>
    minAccH
      (match c.size_hint_x with
       | none => msx + c.w
       | some _ => msx)
      (match c.size_hint_y with
       | none => max msy c.h
       | some _ => msy)
      (match c.size_hint_x with
       | none => swx
       | some s => swx + s)
      rest

/-- The vertical-orientation minimum/weight loop of `_iterate_layout`:
accumulators `(minimum_size_x, minimum_size_y, stretch_weight_y)`. -/
def minAccV : ℚ → ℚ → ℚ → List Child → ℚ × ℚ × ℚ
  | msx, msy, swy, [] => (msx, msy, swy)
  | msx, msy, swy, c :: rest =>
    minAccV
      (match c.size_hint_x with
       | none => max msx c.w
       | some _ => msx)
      (match c.size_hint_y with
       | none => msy + c.h
       | some _ => msy)
      (match c.size_hint_y with
       | none => swy
       | some s => swy + s)
      rest

/-- Horizontal case of the minimum-size pass: starts
`minimum_size_x = padding_x + spacing * (len_children - 1)`,
`minimum_size_y = 0`, runs the loop, then adds `padding_y` to
`minimum_size_y`.  Result: `(minimum_size_x, minimum_size_y,
stretch_weight_x)`. -/
def minimumsH (b : BoxState) (sizes : List Child) : ℚ × ℚ × ℚ :=
  let r := minAccH (padding_x b + b.spacing * ((sizes.length : ℚ) - 1)) 0 0 sizes
  (r.1, r.2.1 + padding_y b, r.2.2)

/-- Vertical case of the minimum-size pass: starts `minimum_size_x = 0`,
`minimum_size_y = padding_y + spacing * (len_children - 1)`, runs the
loop, then adds `padding_x` to `minimum_size_x`.  Result:
`(minimum_size_x, minimum_size_y, stretch_weight_y)`. -/
def minimumsV (b : BoxState) (sizes : List Child) : ℚ × ℚ × ℚ :=
  let r := minAccV 0 (padding_y b + b.spacing * ((sizes.length : ℚ) - 1)) 0 sizes
  (r.1 + padding_x b, r.2.1, r.2.2)

/-- Main-axis width of one child in the horizontal placement pass:
`if shw: w = stretch_space * shw / stretch_weight_x`.  Python truthiness:
an absent or zero hint leaves the fixed `w`; a nonzero hint divides, and
dividing by a zero weight sum raises (`none`). -/
def widthMainH (stretch_space stretch_weight_x : ℚ) (c : Child) : Option ℚ :=
  match c.size_hint_x with
  | none => some c.w
  | some shw =>
    if shw = 0 then some c.w
    else if stretch_weight_x = 0 then none
    else some (stretch_space * shw / stretch_weight_x)

/-- Cross-axis height of one child in the horizontal placement pass:
`if shh: h = max(0, shh * (selfh - padding_y))`; absent or zero hint
keeps the fixed `h`. -/
def heightCrossH (b : BoxState) (c : Child) : ℚ :=
  match c.size_hint_y with
  | none => c.h
  | some shh => if shh = 0 then c.h else max 0 (shh * (b.height - padding_y b))

/-- The `pos_hint` loop of the horizontal placement pass: folds the
dict items over the running `cy`, honouring the keys `y`, `top` and
`center_y` against `posy = value * (selfh - padding_y)` and silently
ignoring every other key.  `h` is the already-resolved child height. -/
def posHintFoldH (b : BoxState) (h : ℚ) : ℚ → List (String × ℚ) → ℚ
  | cy, [] => cy
  | cy, (key, value) :: rest =>
    posHintFoldH b h
      (if key = "y" then cy + value * (b.height - padding_y b)
       else if key = "top" then cy + value * (b.height - padding_y b) - h
       else if key = "center_y" then cy + value * (b.height - padding_y b) - h / 2
       else cy)
      rest

/-- The `pos_hint` loop of the vertical placement pass: keys `x`,
`right`, `center_x` against `posx = value * (selfw - padding_x)`. -/
def posHintFoldV (b : BoxState) (w : ℚ) : ℚ → List (String × ℚ) → ℚ
  | cx, [] => cx
  | cx, (key, value) :: rest =>
    posHintFoldV b w
      (if key = "x" then cx + value * (b.width - padding_x b)
       else if key = "right" then cx + value * (b.width - padding_x b) - w
       else if key = "center_x" then cx + value * (b.width - padding_x b) - w / 2
       else cx)
      rest

/-- Main-axis height of one child in the vertical placement pass:
`if shh: h = stretch_space * shh / stretch_weight_y` with the same
truthiness and division behaviour as `widthMainH`. -/
def heightMainV (stretch_space stretch_weight_y : ℚ) (c : Child) : Option ℚ :=
  match c.size_hint_y with
  | none => some c.h
  | some shh =>
    if shh = 0 then some c.h
    else if stretch_weight_y = 0 then none
    else some (stretch_space * shh / stretch_weight_y)

/-- Cross-axis width of one child in the vertical placement pass:
`if shw: w = max(0, shw * (selfw - padding_x))`. -/
def widthCrossV (b : BoxState) (c : Child) : ℚ :=
  match c.size_hint_x with
  | none => c.w
  | some shw => if shw = 0 then c.w else max 0 (shw * (b.width - padding_x b))

/-- The horizontal placement loop of `_iterate_layout`, iterating an
already-reversed child list: cursor `x`, visit counter `i`, total child
count `n`; each visited child yields `(n - i - 1, selfx + x, cy, w, h)`
and the cursor advances by `w + spacing`.  `none` models the
`ZeroDivisionError` of a truthy hint against a zero weight sum. -/
def placeLoopH (b : BoxState) (ss swx : ℚ) (n : Nat) :
    List Child → ℚ → Nat → Option (List Geom)
  | [], _, _ => some []
  | c :: rest, x, i =>
    match widthMainH ss swx c with
    | none => none
    | some w =>
      match placeLoopH b ss swx n rest (x + w + b.spacing) (i + 1) with
      | none => none
      | some tail =>
        some (⟨n - i - 1, b.x + x,
               posHintFoldH b (heightCrossH b c) (b.y + b.padding_bottom) c.pos_hint,
               w, heightCrossH b c⟩ :: tail)

/-- The vertical placement loop of `_iterate_layout`, iterating the
child list in order: cursor `y`, visit counter `i`; each visited child
yields `(i, cx, selfy + y, w, h)` and the cursor advances by
`h + spacing`. -/
def placeLoopV (b : BoxState) (ss swy : ℚ) :
    List Child → ℚ → Nat → Option (List Geom)
  | [], _, _ => some []
  | c :: rest, y, i =>
    match heightMainV ss swy c with
    | none => none
    | some h =>
      match placeLoopV b ss swy rest (y + h + b.spacing) (i + 1) with
      | none => none
      | some tail =>
        some (⟨i,
               posHintFoldV b (widthCrossV b c) (b.x + b.padding_left) c.pos_hint,
               b.y + y, widthCrossV b c, h⟩ :: tail)

/-- The whole of `_iterate_layout`: computes the minimum sizes and
stretch weights, sets `self.minimum_size` (the first component of the
result), computes `stretch_space = max(0, extent - minimum)` on the main
axis and runs the orientation's placement loop — over `reversed(sizes)`
with cursor starting at `padding_left` for horizontal, over `sizes` with
cursor starting at `padding_bottom` for vertical. -/
def iterate_layout (b : BoxState) (sizes : List Child) :
    (ℚ × ℚ) × Option (List Geom) :=
  match b.orientation with
  | Orient.horizontal =>
    let m := minimumsH b sizes
    ((m.1, m.2.1),
     placeLoopH b (max 0 (b.width - m.1)) m.2.2 sizes.length
       sizes.reverse b.padding_left 0)
  | Orient.vertical =>
    let m := minimumsV b sizes
    ((m.1, m.2.1),
     placeLoopV b (max 0 (b.height - m.2.1)) m.2.2
       sizes b.padding_bottom 0)

/-- The source's `do_layout`: with no children it sets
`minimum_size = (l + r, t + b)` and returns before any placement
(zero geometry entries); otherwise it runs `_iterate_layout` on the
children's descriptors and applies the yielded geometry. -/
def do_layout (b : BoxState) (children : List Child) :
    (ℚ × ℚ) × Option (List Geom) :=
  if children = [] then
    ((b.padding_left + b.padding_right, b.padding_top + b.padding_bottom),
     some [])
  else iterate_layout b children

/-- Value produced by `widthMainH` when it does not fail, as a total
function (ℚ division is total; the `swx = 0` case is never used under
that reading because `widthMainH` returns `none` there). -/
def widthPureH (ss swx : ℚ) (c : Child) : ℚ :=
  match c.size_hint_x with
  | none => c.w
  | some shw => if shw = 0 then c.w else ss * shw / swx

/-- Value produced by `heightMainV` when it does not fail. -/
def heightPureV (ss swy : ℚ) (c : Child) : ℚ :=
  match c.size_hint_y with
  | none => c.h
  | some shh => if shh = 0 then c.h else ss * shh / swy

/-- Total shadow of `placeLoopH`: the geometry list it yields whenever
it does not fail. -/
def placePureH (b : BoxState) (ss swx : ℚ) (n : Nat) :
    List Child → ℚ → Nat → List Geom
  | [], _, _ => []
  | c :: rest, x, i =>
    ⟨n - i - 1, b.x + x,
     posHintFoldH b (heightCrossH b c) (b.y + b.padding_bottom) c.pos_hint,
     widthPureH ss swx c, heightCrossH b c⟩ ::
    placePureH b ss swx n rest (x + widthPureH ss swx c + b.spacing) (i + 1)

/-- Total shadow of `placeLoopV`. -/
def placePureV (b : BoxState) (ss swy : ℚ) :
    List Child → ℚ → Nat → List Geom
  | [], _, _ => []
  | c :: rest, y, i =>
    ⟨i, posHintFoldV b (widthCrossV b c) (b.x + b.padding_left) c.pos_hint,
     b.y + y, widthCrossV b c, heightPureV ss swy c⟩ ::
    placePureV b ss swy rest (y + heightPureV ss swy c + b.spacing) (i + 1)

lemma widthMainH_some {ss swx : ℚ} {c : Child} {w : ℚ}
    (h : widthMainH ss swx c = some w) : w = widthPureH ss swx c := by
  cases hx : c.size_hint_x with
  | none =>
    simp only [widthMainH, widthPureH, hx, Option.some.injEq] at h ⊢
    exact h.symm
  | some s =>
    by_cases hs : s = 0
    · simp only [widthMainH, widthPureH, hx, hs, if_true, if_pos,
        Option.some.injEq, ite_true] at h ⊢
      exact h.symm
    · by_cases hw : swx = 0
      · simp [widthMainH, hx, hs, hw] at h
      · simp only [widthMainH, widthPureH, hx, hs, hw, if_false, ite_false,
          Option.some.injEq] at h ⊢
        exact h.symm

lemma heightMainV_some {ss swy : ℚ} {c : Child} {h : ℚ}
    (hh : heightMainV ss swy c = some h) : h = heightPureV ss swy c := by
  cases hx : c.size_hint_y with
  | none =>
    simp only [heightMainV, heightPureV, hx, Option.some.injEq] at hh ⊢
    exact hh.symm
  | some s =>
    by_cases hs : s = 0
    · simp only [heightMainV, heightPureV, hx, hs, Option.some.injEq,
        ite_true] at hh ⊢
      exact hh.symm
    · by_cases hw : swy = 0
      · simp [heightMainV, hx, hs, hw] at hh
      · simp only [heightMainV, heightPureV, hx, hs, hw, ite_false,
          Option.some.injEq] at hh ⊢
        exact hh.symm

lemma placeLoopH_some (b : BoxState) (ss swx : ℚ) (n : Nat) :
    ∀ (l : List Child) (x : ℚ) (i : Nat) (g : List Geom),
      placeLoopH b ss swx n l x i = some g →
      g = placePureH b ss swx n l x i := by
  intro l
  induction l with
  | nil =>
    intro x i g hg
    simp only [placeLoopH, Option.some.injEq] at hg
    simp [placePureH, ← hg]
  | cons c rest ih =>
    intro x i g hg
    rw [placeLoopH] at hg
    cases hw : widthMainH ss swx c with
    | none => simp only [hw] at hg; exact Option.noConfusion hg
    | some w =>
      simp only [hw] at hg
      cases ht : placeLoopH b ss swx n rest (x + w + b.spacing) (i + 1) with
      | none => simp only [ht] at hg; exact Option.noConfusion hg
      | some tail =>
        simp only [ht, Option.some.injEq] at hg
        have hwp := widthMainH_some hw
        have htail := ih (x + w + b.spacing) (i + 1) tail ht
        subst hg
        rw [htail, hwp]
        simp [placePureH]

lemma placeLoopV_some (b : BoxState) (ss swy : ℚ) :
    ∀ (l : List Child) (y : ℚ) (i : Nat) (g : List Geom),
      placeLoopV b ss swy l y i = some g →
      g = placePureV b ss swy l y i := by
  intro l
  induction l with
  | nil =>
    intro y i g hg
    simp only [placeLoopV, Option.some.injEq] at hg
    simp [placePureV, ← hg]
  | cons c rest ih =>
    intro y i g hg
    rw [placeLoopV] at hg
    cases hw : heightMainV ss swy c with
    | none => simp only [hw] at hg; exact Option.noConfusion hg
    | some h =>
      simp only [hw] at hg
      cases ht : placeLoopV b ss swy rest (y + h + b.spacing) (i + 1) with
      | none => simp only [ht] at hg; exact Option.noConfusion hg
      | some tail =>
        simp only [ht, Option.some.injEq] at hg
        have hwp := heightMainV_some hw
        have htail := ih (y + h + b.spacing) (i + 1) tail ht
        subst hg
        rw [htail, hwp]
        simp [placePureV]

lemma placeLoopH_isSome (b : BoxState) (ss swx : ℚ) (n : Nat) :
    ∀ (l : List Child) (x : ℚ) (i : Nat),
      (∀ c ∈ l, ∀ s, c.size_hint_x = some s → s ≠ 0 → swx ≠ 0) →
      placeLoopH b ss swx n l x i =
        some (placePureH b ss swx n l x i) := by
  intro l
  induction l with
  | nil => intro x i _; rfl
  | cons c rest ih =>
    intro x i hsafe
    have hc : widthMainH ss swx c = some (widthPureH ss swx c) := by
      cases hx : c.size_hint_x with
      | none => simp [widthMainH, widthPureH, hx]
      | some s =>
        by_cases hs : s = 0
        · simp [widthMainH, widthPureH, hx, hs]
        · have hswx : swx ≠ 0 := hsafe c (by simp) s hx hs
          simp [widthMainH, widthPureH, hx, hs, hswx]
    rw [placeLoopH]
    simp only [hc]
    rw [ih (x + widthPureH ss swx c + b.spacing) (i + 1)
      (fun d hd => hsafe d (List.mem_cons_of_mem _ hd))]
    simp [placePureH]

lemma placeLoopV_isSome (b : BoxState) (ss swy : ℚ) :
    ∀ (l : List Child) (y : ℚ) (i : Nat),
      (∀ c ∈ l, ∀ s, c.size_hint_y = some s → s ≠ 0 → swy ≠ 0) →
      placeLoopV b ss swy l y i =
        some (placePureV b ss swy l y i) := by
  intro l
  induction l with
  | nil => intro y i _; rfl
  | cons c rest ih =>
    intro y i hsafe
    have hc : heightMainV ss swy c = some (heightPureV ss swy c) := by
      cases hx : c.size_hint_y with
      | none => simp [heightMainV, heightPureV, hx]
      | some s =>
        by_cases hs : s = 0
        · simp [heightMainV, heightPureV, hx, hs]
        · have hswy : swy ≠ 0 := hsafe c (by simp) s hx hs
          simp [heightMainV, heightPureV, hx, hs, hswy]
    rw [placeLoopV]
    simp only [hc]
    rw [ih (y + heightPureV ss swy c + b.spacing) (i + 1)
      (fun d hd => hsafe d (List.mem_cons_of_mem _ hd))]
    simp [placePureV]

/-- Fixed width of a child whose main-axis hint is absent (horizontal
reading); `none` when the hint is present. -/
def fixedW (c : Child) : Option ℚ :=
  match c.size_hint_x with
  | none => some c.w
  | some _ => none

/-- Fixed height of a child whose cross-axis hint is absent. -/
def fixedH (c : Child) : Option ℚ :=
  match c.size_hint_y with
  | none => some c.h
  | some _ => none

/-- Sum of the fixed widths of the children whose width hint is absent
(the spec's `Σ(fixed_w for children with shw absent)`). -/
def sumFixedW (l : List Child) : ℚ := (l.filterMap fixedW).sum

/-- Sum of the fixed heights of the children whose height hint is absent. -/
def sumFixedH (l : List Child) : ℚ := (l.filterMap fixedH).sum

/-- Maximum fixed height over children whose height hint is absent,
taken together with `0` (the loop accumulator starts at `0`). -/
def maxFixedH (l : List Child) : ℚ := (l.filterMap fixedH).foldl max 0

/-- Maximum fixed width over children whose width hint is absent,
taken together with `0`. -/
def maxFixedW (l : List Child) : ℚ := (l.filterMap fixedW).foldl max 0

/-- Sum of the present width hints (the spec's `stretch_weight_x`). -/
def sumHintW (l : List Child) : ℚ := (l.filterMap Child.size_hint_x).sum

/-- Sum of the present height hints (the spec's `stretch_weight_y`). -/
def sumHintH (l : List Child) : ℚ := (l.filterMap Child.size_hint_y).sum

lemma minAccH_eq :
    ∀ (l : List Child) (msx msy swx : ℚ),
      minAccH msx msy swx l =
        (msx + sumFixedW l, (l.filterMap fixedH).foldl max msy,
         swx + sumHintW l) := by
  intro l
  induction l with
  | nil => intro msx msy swx; simp [minAccH, sumFixedW, sumHintW]
  | cons c rest ih =>
    intro msx msy swx
    rw [minAccH]
    cases hx : c.size_hint_x with
    | none =>
      cases hy : c.size_hint_y with
      | none =>
        simp only [hx, hy, ih]
        simp [sumFixedW, sumHintW, fixedW, fixedH, hx, hy,
          List.filterMap_cons, add_assoc]
      | some t =>
        simp only [hx, hy, ih]
        simp [sumFixedW, sumHintW, fixedW, fixedH, hx, hy,
          List.filterMap_cons, add_assoc]
    | some s =>
      cases hy : c.size_hint_y with
      | none =>
        simp only [hx, hy, ih]
        simp [sumFixedW, sumHintW, fixedW, fixedH, hx, hy,
          List.filterMap_cons, add_assoc]
      | some t =>
        simp only [hx, hy, ih]
        simp [sumFixedW, sumHintW, fixedW, fixedH, hx, hy,
          List.filterMap_cons, add_assoc]

lemma minAccV_eq :
    ∀ (l : List Child) (msx msy swy : ℚ),
      minAccV msx msy swy l =
        ((l.filterMap fixedW).foldl max msx, msy + sumFixedH l,
         swy + sumHintH l) := by
  intro l
  induction l with
  | nil => intro msx msy swy; simp [minAccV, sumFixedH, sumHintH]
  | cons c rest ih =>
    intro msx msy swy
    rw [minAccV]
    cases hx : c.size_hint_x with
    | none =>
      cases hy : c.size_hint_y with
      | none =>
        simp only [hx, hy, ih]
        simp [sumFixedH, sumHintH, fixedW, fixedH, hx, hy,
          List.filterMap_cons, add_assoc]
      | some t =>
        simp only [hx, hy, ih]
        simp [sumFixedH, sumHintH, fixedW, fixedH, hx, hy,
          List.filterMap_cons, add_assoc]
    | some s =>
      cases hy : c.size_hint_y with
      | none =>
        simp only [hx, hy, ih]
        simp [sumFixedH, sumHintH, fixedW, fixedH, hx, hy,
          List.filterMap_cons, add_assoc]
      | some t =>
        simp only [hx, hy, ih]
        simp [sumFixedH, sumHintH, fixedW, fixedH, hx, hy,
          List.filterMap_cons, add_assoc]

lemma minimumsH_eq (b : BoxState) (l : List Child) :
    minimumsH b l =
      (padding_x b + b.spacing * ((l.length : ℚ) - 1) + sumFixedW l,
       padding_y b + maxFixedH l, sumHintW l) := by
  unfold minimumsH
  rw [minAccH_eq]
  simp [maxFixedH, add_comm]

lemma minimumsV_eq (b : BoxState) (l : List Child) :
    minimumsV b l =
      (padding_x b + maxFixedW l,
       padding_y b + b.spacing * ((l.length : ℚ) - 1) + sumFixedH l,
       sumHintH l) := by
  unfold minimumsV
  rw [minAccV_eq]
  simp [maxFixedW, add_comm]

lemma placePureH_length (b : BoxState) (ss swx : ℚ) (n : Nat) :
    ∀ (l : List Child) (x : ℚ) (i : Nat),
      (placePureH b ss swx n l x i).length = l.length := by
  intro l
  induction l with
  | nil => intro x i; rfl
  | cons c rest ih => intro x i; simp [placePureH, ih]

lemma placePureV_length (b : BoxState) (ss swy : ℚ) :
    ∀ (l : List Child) (y : ℚ) (i : Nat),
      (placePureV b ss swy l y i).length = l.length := by
  intro l
  induction l with
  | nil => intro y i; rfl
  | cons c rest ih => intro y i; simp [placePureV, ih]

/-- The main-axis cursor of the horizontal placement pass: the value of
`x` when the `k`-th child of `l` is visited, starting from `x`. -/
def cursPH (b : BoxState) (ss swx : ℚ) : Nat → List Child → ℚ → ℚ
  | 0, _, x => x
  | _ + 1, [], x => x
  | k + 1, c :: rest, x =>
    cursPH b ss swx k rest (x + widthPureH ss swx c + b.spacing)

/-- The main-axis cursor of the vertical placement pass. -/
def cursPV (b : BoxState) (ss swy : ℚ) : Nat → List Child → ℚ → ℚ
  | 0, _, y => y
  | _ + 1, [], y => y
  | k + 1, c :: rest, y =>
    cursPV b ss swy k rest (y + heightPureV ss swy c + b.spacing)

lemma placePureH_get (b : BoxState) (ss swx : ℚ) (n : Nat) :
    ∀ (l : List Child) (x : ℚ) (i k : Nat) (hk : k < l.length),
      (placePureH b ss swx n l x i).get
          ⟨k, by rw [placePureH_length]; exact hk⟩ =
        ⟨n - (i + k) - 1, b.x + cursPH b ss swx k l x,
         posHintFoldH b (heightCrossH b (l.get ⟨k, hk⟩))
           (b.y + b.padding_bottom) (l.get ⟨k, hk⟩).pos_hint,
         widthPureH ss swx (l.get ⟨k, hk⟩),
         heightCrossH b (l.get ⟨k, hk⟩)⟩ := by
  intro l
  induction l with
  | nil => intro x i k hk; exact absurd hk (by simp)
  | cons c rest ih =>
    intro x i k hk
    cases k with
    | zero => simp [placePureH, cursPH]
    | succ k =>
      have hk' : k < rest.length := by simpa using hk
      have := ih (x + widthPureH ss swx c + b.spacing) (i + 1) k hk'
      simp only [placePureH, List.get_cons_succ]
      rw [this]
      have harith : n - (i + 1 + k) - 1 = n - (i + (k + 1)) - 1 := by omega
      rw [harith]
      rfl

lemma placePureV_get (b : BoxState) (ss swy : ℚ) :
    ∀ (l : List Child) (y : ℚ) (i k : Nat) (hk : k < l.length),
      (placePureV b ss swy l y i).get
          ⟨k, by rw [placePureV_length]; exact hk⟩ =
        ⟨i + k,
         posHintFoldV b (widthCrossV b (l.get ⟨k, hk⟩))
           (b.x + b.padding_left) (l.get ⟨k, hk⟩).pos_hint,
         b.y + cursPV b ss swy k l y,
         widthCrossV b (l.get ⟨k, hk⟩),
         heightPureV ss swy (l.get ⟨k, hk⟩)⟩ := by
  intro l
  induction l with
  | nil => intro y i k hk; exact absurd hk (by simp)
  | cons c rest ih =>
    intro y i k hk
    cases k with
    | zero => simp [placePureV, cursPV]
    | succ k =>
      have hk' : k < rest.length := by simpa using hk
      have := ih (y + heightPureV ss swy c + b.spacing) (i + 1) k hk'
      simp only [placePureV, List.get_cons_succ]
      rw [this]
      have harith : i + 1 + k = i + (k + 1) := by omega
      rw [harith]
      rfl

lemma cursPH_succ (b : BoxState) (ss swx : ℚ) :
    ∀ (l : List Child) (x : ℚ) (k : Nat) (hk : k < l.length),
      cursPH b ss swx (k + 1) l x =
        cursPH b ss swx k l x + widthPureH ss swx (l.get ⟨k, hk⟩) +
          b.spacing := by
  intro l
  induction l with
  | nil => intro x k hk; exact absurd hk (by simp)
  | cons c rest ih =>
    intro x k hk
    cases k with
    | zero => simp [cursPH]
    | succ k =>
      have hk' : k < rest.length := by simpa using hk
      simp only [cursPH, List.get_cons_succ]
      exact ih (x + widthPureH ss swx c + b.spacing) k hk'

lemma cursPV_succ (b : BoxState) (ss swy : ℚ) :
    ∀ (l : List Child) (y : ℚ) (k : Nat) (hk : k < l.length),
      cursPV b ss swy (k + 1) l y =
        cursPV b ss swy k l y + heightPureV ss swy (l.get ⟨k, hk⟩) +
          b.spacing := by
  intro l
  induction l with
  | nil => intro y k hk; exact absurd hk (by simp)
  | cons c rest ih =>
    intro y k hk
    cases k with
    | zero => simp [cursPV]
    | succ k =>
      have hk' : k < rest.length := by simpa using hk
      simp only [cursPV, List.get_cons_succ]
      exact ih (y + heightPureV ss swy c + b.spacing) k hk'

/-- Sum of the emitted main-axis widths of a geometry stream. -/
def sumWidths (g : List Geom) : ℚ := (g.map Geom.w).sum

/-- Sum of the emitted main-axis heights of a geometry stream. -/
def sumHeights (g : List Geom) : ℚ := (g.map Geom.h).sum

lemma placePureH_sumWidths (b : BoxState) (ss swx : ℚ) (n : Nat) :
    ∀ (l : List Child) (x : ℚ) (i : Nat),
      sumWidths (placePureH b ss swx n l x i) =
        (l.map (widthPureH ss swx)).sum := by
  intro l
  induction l with
  | nil => intro x i; rfl
  | cons c rest ih =>
    intro x i
    have h2 := ih (x + widthPureH ss swx c + b.spacing) (i + 1)
    simp only [sumWidths] at h2 ⊢
    simp [placePureH, h2]

lemma sumHintW_ne_zero {cs : List Child} {c : Child} {s : ℚ}
    (hmem : c ∈ cs) (hs : c.size_hint_x = some s)
    (hpos : ∀ d ∈ cs, ∀ t, d.size_hint_x = some t → 0 ≤ t)
    (hne : s ≠ 0) : sumHintW cs ≠ 0 := by
  have hsmem : s ∈ cs.filterMap Child.size_hint_x :=
    List.mem_filterMap.2 ⟨c, hmem, hs⟩
  have hall : ∀ t ∈ cs.filterMap Child.size_hint_x, 0 ≤ t := by
    intro t ht
    rcases List.mem_filterMap.1 ht with ⟨d, hd, hdt⟩
    exact hpos d hd t hdt
  have hle : s ≤ (cs.filterMap Child.size_hint_x).sum :=
    List.single_le_sum hall s hsmem
  have hlt : 0 < s := lt_of_le_of_ne (hpos c hmem s hs) (Ne.symm hne)
  unfold sumHintW
  exact ne_of_gt (lt_of_lt_of_le hlt hle)

lemma sumHintH_ne_zero {cs : List Child} {c : Child} {s : ℚ}
    (hmem : c ∈ cs) (hs : c.size_hint_y = some s)
    (hpos : ∀ d ∈ cs, ∀ t, d.size_hint_y = some t → 0 ≤ t)
    (hne : s ≠ 0) : sumHintH cs ≠ 0 := by
  have hsmem : s ∈ cs.filterMap Child.size_hint_y :=
    List.mem_filterMap.2 ⟨c, hmem, hs⟩
  have hall : ∀ t ∈ cs.filterMap Child.size_hint_y, 0 ≤ t := by
    intro t ht
    rcases List.mem_filterMap.1 ht with ⟨d, hd, hdt⟩
    exact hpos d hd t hdt
  have hle : s ≤ (cs.filterMap Child.size_hint_y).sum :=
    List.single_le_sum hall s hsmem
  have hlt : 0 < s := lt_of_le_of_ne (hpos c hmem s hs) (Ne.symm hne)
  unfold sumHintH
  exact ne_of_gt (lt_of_lt_of_le hlt hle)

/-- C8: with an empty children list, `do_layout` sets `minimum_size` to
exactly `(padding_left + padding_right, padding_top + padding_bottom)`
and emits zero geometry entries, returning before any placement. -/
theorem C8_zero_children_early_exit (b : BoxState) :
    do_layout b [] =
      ((b.padding_left + b.padding_right,
        b.padding_top + b.padding_bottom), some []) := by
  simp [do_layout]

/-- C9: the layout computation is a deterministic pure function of its
inputs — identical container state and child descriptors yield the
identical geometry stream and minimum size, so repeating the layout
with unchanged inputs changes nothing. -/
theorem C9_determinism (b1 b2 : BoxState) (cs1 cs2 : List Child)
    (hb : b1 = b2) (hc : cs1 = cs2) :
    iterate_layout b1 cs1 = iterate_layout b2 cs2 ∧
    do_layout b1 cs1 = do_layout b2 cs2 := by
  subst hb
  subst hc
  exact ⟨rfl, rfl⟩

theorem C9_determinism_witness :
    iterate_layout ⟨1, 2, 3, 4, 5, Orient.horizontal, 0, 0, 100, 100⟩
        [⟨10, 10, some 1, none, [("y", 1/2)]⟩] =
      iterate_layout ⟨1, 2, 3, 4, 5, Orient.horizontal, 0, 0, 100, 100⟩
        [⟨10, 10, some 1, none, [("y", 1/2)]⟩] ∧
    do_layout ⟨1, 2, 3, 4, 5, Orient.horizontal, 0, 0, 100, 100⟩
        [⟨10, 10, some 1, none, [("y", 1/2)]⟩] =
      do_layout ⟨1, 2, 3, 4, 5, Orient.horizontal, 0, 0, 100, 100⟩
        [⟨10, 10, some 1, none, [("y", 1/2)]⟩] :=
  C9_determinism _ _ _ _ rfl rfl

/-- C7: when every present size-hint weight is non-negative, the layout
iteration never hits a division by zero — a nonzero per-child hint
forces a positive weight sum, and a zero-weight-only stretch set never
reaches the division (Python truthiness skips it) — so `_iterate_layout`
completes without failure in both orientations. -/
theorem C7_division_safety (b : BoxState) (cs : List Child)
    (hx : ∀ c ∈ cs, ∀ s, c.size_hint_x = some s → 0 ≤ s)
    (hy : ∀ c ∈ cs, ∀ s, c.size_hint_y = some s → 0 ≤ s) :
    ((iterate_layout b cs).2).isSome := by
  cases horient : b.orientation with
  | horizontal =>
    have hsafe : ∀ c ∈ cs.reverse, ∀ s, c.size_hint_x = some s → s ≠ 0 →
        (minimumsH b cs).2.2 ≠ 0 := by
      intro c hc s hs hsne
      rw [minimumsH_eq]
      exact sumHintW_ne_zero (List.mem_reverse.1 hc) hs hx hsne
    have hsome := placeLoopH_isSome b (max 0 (b.width - (minimumsH b cs).1))
      ((minimumsH b cs).2.2) cs.length cs.reverse b.padding_left 0 hsafe
    simp [iterate_layout, horient, hsome]
  | vertical =>
    have hsafe : ∀ c ∈ cs, ∀ s, c.size_hint_y = some s → s ≠ 0 →
        (minimumsV b cs).2.2 ≠ 0 := by
      intro c hc s hs hsne
      rw [minimumsV_eq]
      exact sumHintH_ne_zero hc hs hy hsne
    have hsome := placeLoopV_isSome b (max 0 (b.height - (minimumsV b cs).2.1))
      ((minimumsV b cs).2.2) cs b.padding_bottom 0 hsafe
    simp [iterate_layout, horient, hsome]

theorem C7_division_safety_witness :
    (∀ c ∈ [(⟨10, 10, some 0, some 0, []⟩ : Child),
            ⟨20, 20, some 0, none, []⟩],
      ∀ s, c.size_hint_x = some s → 0 ≤ s) ∧
    (∀ c ∈ [(⟨10, 10, some 0, some 0, []⟩ : Child),
            ⟨20, 20, some 0, none, []⟩],
      ∀ s, c.size_hint_y = some s → 0 ≤ s) ∧
    ((iterate_layout ⟨1, 2, 3, 4, 5, Orient.horizontal, 0, 0, 100, 100⟩
        [⟨10, 10, some 0, some 0, []⟩, ⟨20, 20, some 0, none, []⟩]).2).isSome :=
  ⟨by intro c hc s hs; fin_cases hc <;> simp_all,
   by intro c hc s hs; fin_cases hc <;> simp_all,
   C7_division_safety _ _
     (by intro c hc s hs; fin_cases hc <;> simp_all)
     (by intro c hc s hs; fin_cases hc <;> simp_all)⟩

/-- C3 counterexample: one horizontal child with fixed size `(10, -5)`
and no hints.  The code folds `max` starting from the accumulator `0`,
so `minimum_size_y = 0`, while the claim's `padding_y + max(fixed_h)`
formula yields `-5`. -/
theorem C3_counterexample :
    (minimumsH ⟨0, 0, 0, 0, 0, Orient.horizontal, 0, 0, 100, 100⟩
        [⟨10, -5, none, none, []⟩]).2.1 = 0 ∧
    ((0 : ℚ) + 0 + (-5) ≠ 0) := by
  constructor
  · simp [minimumsH, minAccH, padding_x, padding_y]
  · norm_num

/-- C3 (amended): the SizeModel formulas hold with the maximum fixed
extent taken together with `0` (the loop accumulator starts at zero, so
a negative fixed cross extent never lowers the minimum below the
padding): horizontally `min_w = padding_x + spacing*(n-1) + Σ fixed_w`,
`stretch_weight_x = Σ present hints`, `min_h = padding_y + max(0, fixed
heights)`; the vertical orientation is the axis-swapped mirror. -/
theorem C3_sizemodel_formulas (b : BoxState) (l : List Child) :
    minimumsH b l =
      (b.padding_left + b.padding_right +
         b.spacing * ((l.length : ℚ) - 1) + sumFixedW l,
       b.padding_top + b.padding_bottom + maxFixedH l,
       sumHintW l) ∧
    minimumsV b l =
      (b.padding_left + b.padding_right + maxFixedW l,
       b.padding_top + b.padding_bottom +
         b.spacing * ((l.length : ℚ) - 1) + sumFixedH l,
       sumHintH l) := by
  constructor
  · rw [minimumsH_eq]; rfl
  · rw [minimumsV_eq]; rfl

/-- C4: in horizontal orientation the placement pass visits the
children back-to-front — the `k`-th emitted geometry is tagged with
original index `n - 1 - k` — with the main-axis cursor starting at
`padding_left` and advancing by the emitted width plus spacing; in
vertical orientation children are visited in forward order (`k`-th
entry tagged `k`) with the cursor starting at `padding_bottom` and
advancing by the emitted height plus spacing. -/
theorem C4_iteration_order (b : BoxState) (cs : List Child)
    (geo : List Geom) (hg : (iterate_layout b cs).2 = some geo) :
    geo.length = cs.length ∧
    (b.orientation = Orient.horizontal →
      (∀ (k : Nat) (hk : k < geo.length),
        (geo.get ⟨k, hk⟩).idx = cs.length - 1 - k) ∧
      (∀ h0 : 0 < geo.length,
        (geo.get ⟨0, h0⟩).cx = b.x + b.padding_left) ∧
      (∀ (k : Nat) (hk1 : k < geo.length) (hk2 : k + 1 < geo.length),
        (geo.get ⟨k + 1, hk2⟩).cx =
          (geo.get ⟨k, hk1⟩).cx + (geo.get ⟨k, hk1⟩).w + b.spacing)) ∧
    (b.orientation = Orient.vertical →
      (∀ (k : Nat) (hk : k < geo.length), (geo.get ⟨k, hk⟩).idx = k) ∧
      (∀ h0 : 0 < geo.length,
        (geo.get ⟨0, h0⟩).cy = b.y + b.padding_bottom) ∧
      (∀ (k : Nat) (hk1 : k < geo.length) (hk2 : k + 1 < geo.length),
        (geo.get ⟨k + 1, hk2⟩).cy =
          (geo.get ⟨k, hk1⟩).cy + (geo.get ⟨k, hk1⟩).h + b.spacing)) := by
  cases horient : b.orientation with
  | horizontal =>
    simp only [iterate_layout, horient] at hg
    have hpure := placeLoopH_some _ _ _ _ _ _ _ _ hg
    subst hpure
    have hlen : (placePureH b (max 0 (b.width - (minimumsH b cs).1))
        (minimumsH b cs).2.2 cs.length cs.reverse b.padding_left 0).length =
        cs.length := by
      rw [placePureH_length, List.length_reverse]
    refine ⟨hlen, fun _ => ⟨?_, ?_, ?_⟩, fun hv => Orient.noConfusion hv⟩
    · intro k hk
      have hk' : k < cs.reverse.length := by
        rw [List.length_reverse]; omega
      rw [placePureH_get b _ _ _ cs.reverse b.padding_left 0 k hk']
      dsimp only
      omega
    · intro h0
      have hk' : 0 < cs.reverse.length := by
        rw [List.length_reverse]; omega
      rw [placePureH_get b _ _ _ cs.reverse b.padding_left 0 0 hk']
      dsimp only
      rw [cursPH]
    · intro k hk1 hk2
      have hk1' : k < cs.reverse.length := by
        rw [List.length_reverse]; omega
      have hk2' : k + 1 < cs.reverse.length := by
        rw [List.length_reverse]; omega
      rw [placePureH_get b _ _ _ cs.reverse b.padding_left 0 k hk1',
        placePureH_get b _ _ _ cs.reverse b.padding_left 0 (k + 1) hk2']
      dsimp only
      rw [cursPH_succ b _ _ cs.reverse b.padding_left k hk1']
      ring
  | vertical =>
    simp only [iterate_layout, horient] at hg
    have hpure := placeLoopV_some _ _ _ _ _ _ _ hg
    subst hpure
    have hlen : (placePureV b (max 0 (b.height - (minimumsV b cs).2.1))
        (minimumsV b cs).2.2 cs b.padding_bottom 0).length = cs.length := by
      rw [placePureV_length]
    refine ⟨hlen, fun hh => Orient.noConfusion hh, fun _ => ⟨?_, ?_, ?_⟩⟩
    · intro k hk
      have hk' : k < cs.length := by omega
      rw [placePureV_get b _ _ cs b.padding_bottom 0 k hk']
      dsimp only
      omega
    · intro h0
      have hk' : 0 < cs.length := by omega
      rw [placePureV_get b _ _ cs b.padding_bottom 0 0 hk']
      dsimp only
      rw [cursPV]
    · intro k hk1 hk2
      have hk1' : k < cs.length := by omega
      have hk2' : k + 1 < cs.length := by omega
      rw [placePureV_get b _ _ cs b.padding_bottom 0 k hk1',
        placePureV_get b _ _ cs b.padding_bottom 0 (k + 1) hk2']
      dsimp only
      rw [cursPV_succ b _ _ cs b.padding_bottom k hk1']
      ring

theorem C4_iteration_order_witness :
    (iterate_layout ⟨0, 0, 0, 0, 0, Orient.horizontal, 0, 0, 100, 100⟩
        [⟨10, 10, none, none, []⟩, ⟨20, 20, none, none, []⟩]).2 =
      some [⟨1, 0, 0, 20, 20⟩, ⟨0, 20, 0, 10, 10⟩] ∧
    ([(⟨1, 0, 0, 20, 20⟩ : Geom), ⟨0, 20, 0, 10, 10⟩].length =
      [(⟨10, 10, none, none, []⟩ : Child), ⟨20, 20, none, none, []⟩].length) := by
  have hg : (iterate_layout ⟨0, 0, 0, 0, 0, Orient.horizontal, 0, 0, 100, 100⟩
      [⟨10, 10, none, none, []⟩, ⟨20, 20, none, none, []⟩]).2 =
      some [⟨1, 0, 0, 20, 20⟩, ⟨0, 20, 0, 10, 10⟩] := by
    norm_num [iterate_layout, minimumsH, minAccH, placeLoopH, widthMainH,
      heightCrossH, posHintFoldH, padding_x, padding_y]
  exact ⟨hg, (C4_iteration_order _ _ _ hg).1⟩

lemma iterate_layout_entries_H (b : BoxState) (cs : List Child)
    (geo : List Geom) (horient : b.orientation = Orient.horizontal)
    (hg : (iterate_layout b cs).2 = some geo) :
    ∀ g ∈ geo, ∃ hj : g.idx < cs.length,
      g.w = widthPureH (max 0 (b.width - (minimumsH b cs).1))
              (minimumsH b cs).2.2 (cs.get ⟨g.idx, hj⟩) ∧
      g.h = heightCrossH b (cs.get ⟨g.idx, hj⟩) ∧
      g.cy = posHintFoldH b (heightCrossH b (cs.get ⟨g.idx, hj⟩))
               (b.y + b.padding_bottom) (cs.get ⟨g.idx, hj⟩).pos_hint := by
  simp only [iterate_layout, horient] at hg
  have hpure := placeLoopH_some _ _ _ _ _ _ _ _ hg
  subst hpure
  intro g hgmem
  obtain ⟨⟨k, hk⟩, hget⟩ := List.mem_iff_get.1 hgmem
  have hk' : k < cs.reverse.length := by
    rw [placePureH_length] at hk; exact hk
  rw [placePureH_get b _ _ _ cs.reverse b.padding_left 0 k hk'] at hget
  subst hget
  dsimp only
  have hkn : k < cs.length := by rw [List.length_reverse] at hk'; exact hk'
  have hj : cs.length - (0 + k) - 1 < cs.length := by omega
  have hrev2 : cs.reverse.get ⟨k, hk'⟩ =
      cs.get ⟨cs.length - (0 + k) - 1, hj⟩ := by
    rw [List.get_reverse' cs ⟨k, hk'⟩ (by omega)]
    exact congrArg cs.get (Fin.ext
      (by show cs.length - 1 - k = cs.length - (0 + k) - 1; omega))
  exact ⟨hj, by rw [hrev2], by rw [hrev2], by rw [hrev2]⟩

lemma iterate_layout_entries_V (b : BoxState) (cs : List Child)
    (geo : List Geom) (horient : b.orientation = Orient.vertical)
    (hg : (iterate_layout b cs).2 = some geo) :
    ∀ g ∈ geo, ∃ hj : g.idx < cs.length,
      g.h = heightPureV (max 0 (b.height - (minimumsV b cs).2.1))
              (minimumsV b cs).2.2 (cs.get ⟨g.idx, hj⟩) ∧
      g.w = widthCrossV b (cs.get ⟨g.idx, hj⟩) ∧
      g.cx = posHintFoldV b (widthCrossV b (cs.get ⟨g.idx, hj⟩))
               (b.x + b.padding_left) (cs.get ⟨g.idx, hj⟩).pos_hint := by
  simp only [iterate_layout, horient] at hg
  have hpure := placeLoopV_some _ _ _ _ _ _ _ hg
  subst hpure
  intro g hgmem
  obtain ⟨⟨k, hk⟩, hget⟩ := List.mem_iff_get.1 hgmem
  have hk' : k < cs.length := by
    rw [placePureV_length] at hk; exact hk
  rw [placePureV_get b _ _ cs b.padding_bottom 0 k hk'] at hget
  subst hget
  dsimp only
  have hj : (0 + k) < cs.length := by omega
  have h2 : cs.get ⟨k, hk'⟩ = cs.get ⟨0 + k, hj⟩ :=
    congrArg cs.get (Fin.ext (by show k = 0 + k; omega))
  exact ⟨hj, by rw [← h2], by rw [← h2], by rw [← h2]⟩

/-- C2 counterexample: horizontal, container width 100, children
`(10,10)` with hint `1` and `(50,10)` with present hint `0`.  The claim
predicts width `stretch_space * 0 / 1 = 0` for the second child, but the
truthiness guard `if shw:` skips the division and the child keeps its
fixed width `50`. -/
theorem C2_counterexample :
    (iterate_layout ⟨0, 0, 0, 0, 0, Orient.horizontal, 0, 0, 100, 100⟩
        [⟨10, 10, some 1, none, []⟩, ⟨50, 10, some 0, none, []⟩]).2 =
      some [⟨1, 0, 0, 50, 10⟩, ⟨0, 50, 0, 100, 10⟩] ∧
    ((50 : ℚ) ≠ max 0 ((100 : ℚ) - 0) * 0 / 1) := by
  constructor
  · norm_num [iterate_layout, minimumsH, minAccH, placeLoopH, widthMainH,
      heightCrossH, posHintFoldH, padding_x, padding_y]
  · norm_num

/-- C2 (amended): per-child main-axis width rule, horizontal.  A child
whose hint is present and nonzero gets
`stretch_space * shw / stretch_weight_x`; a child whose hint is absent
— or present but zero, which the `if shw:` truthiness guard treats like
an absent hint at placement time — keeps its fixed width exactly,
regardless of container size. -/
theorem C2_main_axis_width (b : BoxState) (cs : List Child)
    (geo : List Geom) (horient : b.orientation = Orient.horizontal)
    (hg : (iterate_layout b cs).2 = some geo) :
    ∀ g ∈ geo, ∃ hj : g.idx < cs.length,
      g.w = match (cs.get ⟨g.idx, hj⟩).size_hint_x with
            | none => (cs.get ⟨g.idx, hj⟩).w
            | some shw =>
              if shw = 0 then (cs.get ⟨g.idx, hj⟩).w
              else max 0 (b.width - (minimumsH b cs).1) * shw /
                (minimumsH b cs).2.2 := by
  intro g hgmem
  obtain ⟨hj, hw, _, _⟩ := iterate_layout_entries_H b cs geo horient hg g hgmem
  exact ⟨hj, hw⟩

def c2box : BoxState := ⟨0, 0, 0, 0, 0, Orient.horizontal, 0, 0, 100, 100⟩

def c2cs : List Child :=
  [⟨10, 10, some 1, none, []⟩, ⟨50, 10, some 0, none, []⟩]

def c2geo : List Geom := [⟨1, 0, 0, 50, 10⟩, ⟨0, 50, 0, 100, 10⟩]

theorem C2_main_axis_width_witness :
    (iterate_layout c2box c2cs).2 = some c2geo ∧
    (∀ g ∈ c2geo, ∃ hj : g.idx < c2cs.length,
      g.w = match (c2cs.get ⟨g.idx, hj⟩).size_hint_x with
            | none => (c2cs.get ⟨g.idx, hj⟩).w
            | some shw =>
              if shw = 0 then (c2cs.get ⟨g.idx, hj⟩).w
              else max 0 (c2box.width - (minimumsH c2box c2cs).1) * shw /
                (minimumsH c2box c2cs).2.2) := by
  have hg : (iterate_layout c2box c2cs).2 = some c2geo := by
    norm_num [c2box, c2cs, c2geo, iterate_layout, minimumsH, minAccH,
      placeLoopH, widthMainH, heightCrossH, posHintFoldH, padding_x,
      padding_y]
  exact ⟨hg, C2_main_axis_width c2box c2cs c2geo rfl hg⟩

/-- C6 counterexample: horizontal, one child `(10, 50)` with a present
zero cross-axis hint.  The claim predicts height
`max(0, 0 * (100 - 0)) = 0`, but the truthiness guard `if shh:` keeps
the fixed height `50`. -/
theorem C6_counterexample :
    (iterate_layout ⟨0, 0, 0, 0, 0, Orient.horizontal, 0, 0, 100, 100⟩
        [⟨10, 50, none, some 0, []⟩]).2 = some [⟨0, 0, 0, 10, 50⟩] ∧
    ((50 : ℚ) ≠ max 0 ((0 : ℚ) * (100 - 0))) := by
  constructor
  · norm_num [iterate_layout, minimumsH, minAccH, placeLoopH, widthMainH,
      heightCrossH, posHintFoldH, padding_x, padding_y]
  · norm_num

/-- C6 (amended): cross-axis independence.  In horizontal orientation a
child with a present nonzero cross hint `shh` gets height
`max(0, shh * (container_height - padding_top - padding_bottom))`,
computed per child from the container's full cross extent with no
dependence on siblings or aggregated minimums; a child with an absent
— or present but zero — cross hint keeps its fixed height.  The
vertical case mirrors this for widths. -/
theorem C6_cross_axis (b : BoxState) (cs : List Child) (geo : List Geom)
    (hg : (iterate_layout b cs).2 = some geo) :
    (b.orientation = Orient.horizontal →
      ∀ g ∈ geo, ∃ hj : g.idx < cs.length,
        g.h = match (cs.get ⟨g.idx, hj⟩).size_hint_y with
              | none => (cs.get ⟨g.idx, hj⟩).h
              | some shh =>
                if shh = 0 then (cs.get ⟨g.idx, hj⟩).h
                else max 0 (shh *
                  (b.height - (b.padding_top + b.padding_bottom)))) ∧
    (b.orientation = Orient.vertical →
      ∀ g ∈ geo, ∃ hj : g.idx < cs.length,
        g.w = match (cs.get ⟨g.idx, hj⟩).size_hint_x with
              | none => (cs.get ⟨g.idx, hj⟩).w
              | some shw =>
                if shw = 0 then (cs.get ⟨g.idx, hj⟩).w
                else max 0 (shw *
                  (b.width - (b.padding_left + b.padding_right)))) := by
  constructor
  · intro horient g hgmem
    obtain ⟨hj, _, hh, _⟩ :=
      iterate_layout_entries_H b cs geo horient hg g hgmem
    exact ⟨hj, hh⟩
  · intro horient g hgmem
    obtain ⟨hj, _, hw, _⟩ :=
      iterate_layout_entries_V b cs geo horient hg g hgmem
    exact ⟨hj, hw⟩

def c6box : BoxState := ⟨0, 0, 2, 6, 0, Orient.horizontal, 0, 0, 100, 100⟩

def c6cs : List Child := [⟨10, 50, none, some (1/2), []⟩]

def c6geo : List Geom := [⟨0, 0, 6, 10, 47⟩]

theorem C6_cross_axis_witness :
    (iterate_layout c6box c6cs).2 = some c6geo ∧
    (∀ g ∈ c6geo, ∃ hj : g.idx < c6cs.length,
      g.h = match (c6cs.get ⟨g.idx, hj⟩).size_hint_y with
            | none => (c6cs.get ⟨g.idx, hj⟩).h
            | some shh =>
              if shh = 0 then (c6cs.get ⟨g.idx, hj⟩).h
              else max 0 (shh *
                (c6box.height -
                  (c6box.padding_top + c6box.padding_bottom)))) := by
  have hg : (iterate_layout c6box c6cs).2 = some c6geo := by
    norm_num [c6box, c6cs, c6geo, iterate_layout, minimumsH, minAccH,
      placeLoopH, widthMainH, heightCrossH, posHintFoldH, padding_x,
      padding_y]
  exact ⟨hg, (C6_cross_axis c6box c6cs c6geo hg).1 rfl⟩

lemma posHintFoldH_id (b : BoxState) (h : ℚ) :
    ∀ (l : List (String × ℚ)) (cy : ℚ),
      (∀ p ∈ l, p.1 ≠ "y" ∧ p.1 ≠ "top" ∧ p.1 ≠ "center_y") →
      posHintFoldH b h cy l = cy := by
  intro l
  induction l with
  | nil => intro cy _; rfl
  | cons p rest ih =>
    intro cy hp
    obtain ⟨key, value⟩ := p
    obtain ⟨h1, h2, h3⟩ := hp (key, value) (by simp)
    simp only at h1 h2 h3
    rw [posHintFoldH, if_neg h1, if_neg h2, if_neg h3]
    exact ih cy (fun q hq => hp q (List.mem_cons_of_mem _ hq))

lemma posHintFoldV_id (b : BoxState) (w : ℚ) :
    ∀ (l : List (String × ℚ)) (cx : ℚ),
      (∀ p ∈ l, p.1 ≠ "x" ∧ p.1 ≠ "right" ∧ p.1 ≠ "center_x") →
      posHintFoldV b w cx l = cx := by
  intro l
  induction l with
  | nil => intro cx _; rfl
  | cons p rest ih =>
    intro cx hp
    obtain ⟨key, value⟩ := p
    obtain ⟨h1, h2, h3⟩ := hp (key, value) (by simp)
    simp only at h1 h2 h3
    rw [posHintFoldV, if_neg h1, if_neg h2, if_neg h3]
    exact ih cx (fun q hq => hp q (List.mem_cons_of_mem _ hq))

/-- C10: implicit cross-axis anchoring.  In horizontal orientation every
emitted `y` starts from the base `container_y + padding_bottom`; a child
whose `pos_hint` holds no recognized cross-axis key (`y`, `top`,
`center_y`) stays bottom-anchored at exactly that base, so `padding_top`
never displaces such a child.  Axis-swapped in vertical orientation,
where the base is `container_x + padding_left`. -/
theorem C10_cross_axis_anchor (b : BoxState) (cs : List Child)
    (geo : List Geom) (hg : (iterate_layout b cs).2 = some geo) :
    (b.orientation = Orient.horizontal →
      ∀ g ∈ geo, ∃ hj : g.idx < cs.length,
        (∀ p ∈ (cs.get ⟨g.idx, hj⟩).pos_hint,
          p.1 ≠ "y" ∧ p.1 ≠ "top" ∧ p.1 ≠ "center_y") →
        g.cy = b.y + b.padding_bottom) ∧
    (b.orientation = Orient.vertical →
      ∀ g ∈ geo, ∃ hj : g.idx < cs.length,
        (∀ p ∈ (cs.get ⟨g.idx, hj⟩).pos_hint,
          p.1 ≠ "x" ∧ p.1 ≠ "right" ∧ p.1 ≠ "center_x") →
        g.cx = b.x + b.padding_left) := by
  constructor
  · intro horient g hgmem
    obtain ⟨hj, _, _, hcy⟩ :=
      iterate_layout_entries_H b cs geo horient hg g hgmem
    refine ⟨hj, fun hp => ?_⟩
    rw [hcy]
    exact posHintFoldH_id b _ _ _ hp
  · intro horient g hgmem
    obtain ⟨hj, _, _, hcx⟩ :=
      iterate_layout_entries_V b cs geo horient hg g hgmem
    refine ⟨hj, fun hp => ?_⟩
    rw [hcx]
    exact posHintFoldV_id b _ _ _ hp

def c10box : BoxState := ⟨0, 0, 0, 4, 0, Orient.horizontal, 0, 9, 100, 100⟩

def c10cs : List Child := [⟨10, 10, none, none, [("x", 1/2)]⟩]

def c10geo : List Geom := [⟨0, 0, 13, 10, 10⟩]

theorem C10_cross_axis_anchor_witness :
    (iterate_layout c10box c10cs).2 = some c10geo ∧
    (∀ g ∈ c10geo, ∃ hj : g.idx < c10cs.length,
      (∀ p ∈ (c10cs.get ⟨g.idx, hj⟩).pos_hint,
        p.1 ≠ "y" ∧ p.1 ≠ "top" ∧ p.1 ≠ "center_y") →
      g.cy = c10box.y + c10box.padding_bottom) := by
  have hg : (iterate_layout c10box c10cs).2 = some c10geo := by
    norm_num [c10box, c10cs, c10geo, iterate_layout, minimumsH, minAccH,
      placeLoopH, widthMainH, heightCrossH, posHintFoldH, padding_x,
      padding_y, (show ("x" : String) ≠ "y" by decide),
      (show ("x" : String) ≠ "top" by decide),
      (show ("x" : String) ≠ "center_y" by decide)]
  exact ⟨hg, (C10_cross_axis_anchor c10box c10cs c10geo hg).1 rfl⟩

lemma map_widthPureH_sum (ss swx : ℚ) :
    ∀ (l : List Child),
      (∀ c ∈ l, ∃ s, c.size_hint_x = some s ∧ s ≠ 0) →
      (l.map (widthPureH ss swx)).sum = ss * sumHintW l / swx := by
  intro l
  induction l with
  | nil => intro _; simp [sumHintW]
  | cons c rest ih =>
    intro hall
    obtain ⟨s, hs, hsne⟩ := hall c (by simp)
    have h1 : widthPureH ss swx c = ss * s / swx := by
      simp [widthPureH, hs, hsne]
    have h2 : sumHintW (c :: rest) = s + sumHintW rest := by
      simp [sumHintW, List.filterMap_cons, hs]
    rw [List.map_cons, List.sum_cons, h1,
      ih (fun d hd => hall d (List.mem_cons_of_mem _ hd)), h2,
      div_add_div_same, mul_add]

lemma sumFixedW_eq_zero {l : List Child}
    (hall : ∀ c ∈ l, ∃ s, c.size_hint_x = some s ∧ s ≠ 0) :
    sumFixedW l = 0 := by
  have hnil : l.filterMap fixedW = [] := by
    rw [List.filterMap_eq_nil_iff]
    intro c hc
    obtain ⟨s, hs, _⟩ := hall c hc
    simp [fixedW, hs]
  simp [sumFixedW, hnil]

/-- C1 counterexample: horizontal, container width 100, zero padding and
spacing; both children carry main-axis hints (`1` and `0`), summing to
`W = 1 > 0`, with `min_w = 0`.  The claim demands
`Σ width_i = max(0, 100 - 0) = 100` (and, as `W > 0`, also
`Σ width_i + 0 + 0 = 100`), but the present-zero-hint child keeps its
fixed width 50, so the emitted widths sum to 150. -/
theorem C1_counterexample :
    Option.map sumWidths
      (iterate_layout ⟨0, 0, 0, 0, 0, Orient.horizontal, 0, 0, 100, 100⟩
        [⟨10, 10, some 1, none, []⟩, ⟨50, 10, some 0, none, []⟩]).2 =
      some 150 ∧
    max 0 ((100 : ℚ) -
      (iterate_layout ⟨0, 0, 0, 0, 0, Orient.horizontal, 0, 0, 100, 100⟩
        [⟨10, 10, some 1, none, []⟩, ⟨50, 10, some 0, none, []⟩]).1.1) =
      100 ∧
    ((150 : ℚ) ≠ 100) := by
  refine ⟨?_, ?_, by norm_num⟩
  · norm_num [iterate_layout, minimumsH, minAccH, placeLoopH, widthMainH,
      heightCrossH, posHintFoldH, padding_x, padding_y, sumWidths]
  · norm_num [iterate_layout, minimumsH, minAccH, padding_x, padding_y]

/-- C1 (amended): main-axis conservation, horizontal, for children that
all carry a *nonzero* (positive) main-axis stretch hint: the emitted
widths always sum to `stretch_space = max(0, container_width - min_w)`;
and when moreover `min_w ≤ container_width` (so the clipping in
`stretch_space` is inactive), the widths plus `(n-1)*spacing` plus the
horizontal padding exactly fill the container width. -/
theorem C1_conservation (b : BoxState) (cs : List Child)
    (horient : b.orientation = Orient.horizontal) (hne : cs ≠ [])
    (hall : ∀ c ∈ cs, ∃ s, c.size_hint_x = some s ∧ 0 < s) :
    Option.map sumWidths (iterate_layout b cs).2 =
      some (max 0 (b.width - (iterate_layout b cs).1.1)) ∧
    ((iterate_layout b cs).1.1 ≤ b.width →
      Option.map (fun geo => sumWidths geo +
          ((cs.length : ℚ) - 1) * b.spacing +
          (b.padding_left + b.padding_right)) (iterate_layout b cs).2 =
        some b.width) := by
  have hall' : ∀ c ∈ cs, ∃ s, c.size_hint_x = some s ∧ s ≠ 0 :=
    fun c hc => by
      obtain ⟨s, hs, hp⟩ := hall c hc
      exact ⟨s, hs, ne_of_gt hp⟩
  obtain ⟨c0, hc0⟩ : ∃ c, c ∈ cs := by
    cases cs with
    | nil => exact absurd rfl hne
    | cons c r => exact ⟨c, by simp⟩
  obtain ⟨s0, hs0, hs0pos⟩ := hall c0 hc0
  have hpos : ∀ d ∈ cs, ∀ t, d.size_hint_x = some t → 0 ≤ t := by
    intro d hd t ht
    obtain ⟨s, hs, hsp⟩ := hall d hd
    rw [hs] at ht
    have := Option.some.inj ht
    linarith [hsp, this ▸ hsp]
  have hswx : sumHintW cs ≠ 0 :=
    sumHintW_ne_zero hc0 hs0 hpos (ne_of_gt hs0pos)
  have hsafe : ∀ c ∈ cs.reverse, ∀ s, c.size_hint_x = some s → s ≠ 0 →
      (minimumsH b cs).2.2 ≠ 0 := by
    intro c hc s hs hsne
    rw [minimumsH_eq]
    exact hswx
  have hsome := placeLoopH_isSome b (max 0 (b.width - (minimumsH b cs).1))
    (minimumsH b cs).2.2 cs.length cs.reverse b.padding_left 0 hsafe
  have hsnd : (iterate_layout b cs).2 =
      some (placePureH b (max 0 (b.width - (minimumsH b cs).1))
        (minimumsH b cs).2.2 cs.length cs.reverse b.padding_left 0) := by
    simp [iterate_layout, horient, hsome]
  have hfst : (iterate_layout b cs).1.1 = (minimumsH b cs).1 := by
    simp [iterate_layout, horient]
  have hsum : sumWidths (placePureH b
      (max 0 (b.width - (minimumsH b cs).1)) (minimumsH b cs).2.2
      cs.length cs.reverse b.padding_left 0) =
      max 0 (b.width - (minimumsH b cs).1) := by
    rw [placePureH_sumWidths]
    have hrev : ∀ c ∈ cs.reverse, ∃ s, c.size_hint_x = some s ∧ s ≠ 0 :=
      fun c hc => hall' c (List.mem_reverse.1 hc)
    rw [map_widthPureH_sum _ _ _ hrev]
    have h3 : sumHintW cs.reverse = sumHintW cs := by
      simp [sumHintW, List.filterMap_reverse, List.sum_reverse]
    have h4 : (minimumsH b cs).2.2 = sumHintW cs := by rw [minimumsH_eq]
    rw [h3, h4, mul_div_assoc, div_self hswx, mul_one]
  constructor
  · rw [hsnd, hfst]
    simp [hsum]
  · intro hle
    rw [hfst] at hle
    rw [hsnd]
    simp only [Option.map_some']
    refine congrArg some ?_
    rw [hsum, max_eq_right (by linarith)]
    have h5 : (minimumsH b cs).1 =
        padding_x b + b.spacing * ((cs.length : ℚ) - 1) + sumFixedW cs := by
      rw [minimumsH_eq]
    rw [h5, sumFixedW_eq_zero hall']
    simp only [padding_x]
    ring

def c1box : BoxState := ⟨0, 0, 0, 0, 0, Orient.horizontal, 0, 0, 100, 100⟩

def c1cs : List Child :=
  [⟨10, 10, some 1, none, []⟩, ⟨10, 10, some 3, none, []⟩]

theorem C1_conservation_witness :
    c1cs ≠ [] ∧
    (∀ c ∈ c1cs, ∃ s, c.size_hint_x = some s ∧ 0 < s) ∧
    Option.map sumWidths (iterate_layout c1box c1cs).2 =
      some (max 0 (c1box.width - (iterate_layout c1box c1cs).1.1)) := by
  have hall : ∀ c ∈ c1cs, ∃ s, c.size_hint_x = some s ∧ 0 < s := by
    intro c hc
    simp only [c1cs, List.mem_cons, List.not_mem_nil, or_false] at hc
    rcases hc with rfl | rfl
    · exact ⟨1, rfl, by norm_num⟩
    · exact ⟨3, rfl, by norm_num⟩
  exact ⟨by simp [c1cs], hall,
    (C1_conservation c1box c1cs rfl (by simp [c1cs]) hall).1⟩

/-- Key translation between the two orientations' `pos_hint`
vocabularies: `y`/`top`/`center_y` exchange with `x`/`right`/`center_x`;
any other key is left unchanged (it is ignored by both orientations). -/
def swapKey (k : String) : String :=
  if k = "y" then "x"
  else if k = "top" then "right"
  else if k = "center_y" then "center_x"
  else if k = "x" then "y"
  else if k = "right" then "top"
  else if k = "center_x" then "center_y"
  else k

/-- Axis swap of one child descriptor: fixed size, size hints and
`pos_hint` keys exchanged between the axes. -/
def swapChild (c : Child) : Child :=
  ⟨c.h, c.w, c.size_hint_y, c.size_hint_x,
   c.pos_hint.map (fun p => (swapKey p.1, p.2))⟩

/-- Axis swap of the container: position, extent and paddings mirrored
(`left` with `bottom`, `top` with `right`), orientation set to
vertical. -/
def swapBox (b : BoxState) : BoxState :=
  ⟨b.padding_bottom, b.padding_right, b.padding_top, b.padding_left,
   b.spacing, Orient.vertical, b.y, b.x, b.height, b.width⟩

/-- Axis swap of one emitted geometry, `n` the total child count: the
index tag `j` becomes `n - j - 1` (the same child's position in the
reversed list), coordinates and extents exchange axes. -/
def swapGeom (n : Nat) (g : Geom) : Geom :=
  ⟨n - g.idx - 1, g.cy, g.cx, g.h, g.w⟩

/-- C5 counterexample: two fixed children `(10,1)` and `(20,2)` in a
width/height-100 container with no padding or spacing.  Horizontally
child 0 sits at `x = 20` (children are visited back-to-front, so child 1
is packed first); after swapping orientation and each child's axes —
without reversing the list — child 0 sits at `y = 0`, not at the
axis-swapped `y = 20`.  So per-index geometry is not the axis-swapped
image. -/
theorem C5_counterexample :
    (iterate_layout ⟨0, 0, 0, 0, 0, Orient.horizontal, 0, 0, 100, 100⟩
        [⟨10, 1, none, none, []⟩, ⟨20, 2, none, none, []⟩]).2 =
      some [⟨1, 0, 0, 20, 2⟩, ⟨0, 20, 0, 10, 1⟩] ∧
    (iterate_layout
        (swapBox ⟨0, 0, 0, 0, 0, Orient.horizontal, 0, 0, 100, 100⟩)
        ([⟨10, 1, none, none, []⟩,
          ⟨20, 2, none, none, []⟩].map swapChild)).2 =
      some [⟨0, 0, 0, 1, 10⟩, ⟨1, 0, 10, 2, 20⟩] ∧
    ((0 : ℚ) ≠ 20) := by
  refine ⟨?_, ?_, by norm_num⟩
  · norm_num [iterate_layout, minimumsH, minAccH, placeLoopH, widthMainH,
      heightCrossH, posHintFoldH, padding_x, padding_y]
  · norm_num [iterate_layout, minimumsV, minAccV, placeLoopV, heightMainV,
      widthCrossV, posHintFoldV, padding_x, padding_y, swapBox, swapChild]

lemma padding_x_swapBox (b : BoxState) :
    padding_x (swapBox b) = padding_y b := by
  simp [padding_x, padding_y, swapBox, add_comm]

lemma padding_y_swapBox (b : BoxState) :
    padding_y (swapBox b) = padding_x b := by
  simp [padding_x, padding_y, swapBox, add_comm]

lemma foldl_max_swap :
    ∀ (l : List ℚ) (a c : ℚ), l.foldl max (max a c) = max c (l.foldl max a) := by
  intro l
  induction l with
  | nil => intro a c; simp [max_comm]
  | cons x rest ih =>
    intro a c
    simp only [List.foldl_cons]
    rw [show max (max a c) x = max (max a x) c by
      rw [max_assoc, max_comm c x, ← max_assoc]]
    exact ih (max a x) c

lemma foldl_max_reverse :
    ∀ (l : List ℚ) (a : ℚ), l.reverse.foldl max a = l.foldl max a := by
  intro l
  induction l with
  | nil => intro a; rfl
  | cons x rest ih =>
    intro a
    simp only [List.reverse_cons, List.foldl_append, List.foldl_cons,
      List.foldl_nil]
    rw [ih, foldl_max_swap rest a x]
    exact max_comm _ _

lemma filterMap_swap_fixedW (cs : List Child) :
    ((cs.map swapChild).reverse).filterMap fixedW =
      (cs.filterMap fixedH).reverse := by
  rw [← List.map_reverse, List.filterMap_map, ← List.filterMap_reverse]
  rfl

lemma filterMap_swap_fixedH (cs : List Child) :
    ((cs.map swapChild).reverse).filterMap fixedH =
      (cs.filterMap fixedW).reverse := by
  rw [← List.map_reverse, List.filterMap_map, ← List.filterMap_reverse]
  rfl

lemma filterMap_swap_hintH (cs : List Child) :
    ((cs.map swapChild).reverse).filterMap Child.size_hint_y =
      (cs.filterMap Child.size_hint_x).reverse := by
  rw [← List.map_reverse, List.filterMap_map, ← List.filterMap_reverse]
  rfl

lemma minimums_swap (b : BoxState) (cs : List Child) :
    minimumsV (swapBox b) ((cs.map swapChild).reverse) =
      ((minimumsH b cs).2.1, (minimumsH b cs).1, (minimumsH b cs).2.2) := by
  rw [minimumsV_eq, minimumsH_eq]
  refine Prod.ext ?_ (Prod.ext ?_ ?_)
  · show padding_x (swapBox b) + maxFixedW ((cs.map swapChild).reverse) =
      padding_y b + maxFixedH cs
    rw [padding_x_swapBox]
    unfold maxFixedW maxFixedH
    rw [filterMap_swap_fixedW, foldl_max_reverse]
  · show padding_y (swapBox b) +
        (swapBox b).spacing * ((((cs.map swapChild).reverse).length : ℚ) - 1) +
        sumFixedH ((cs.map swapChild).reverse) =
      padding_x b + b.spacing * ((cs.length : ℚ) - 1) + sumFixedW cs
    rw [padding_y_swapBox]
    unfold sumFixedH sumFixedW
    rw [filterMap_swap_fixedH, List.sum_reverse]
    simp [swapBox]
  · show sumHintH ((cs.map swapChild).reverse) = sumHintW cs
    unfold sumHintH sumHintW
    rw [filterMap_swap_hintH, List.sum_reverse]

lemma heightMainV_swapChild (ss sw : ℚ) (c : Child) :
    heightMainV ss sw (swapChild c) = widthMainH ss sw c := rfl

lemma widthCrossV_swapChild (b : BoxState) (c : Child) :
    widthCrossV (swapBox b) (swapChild c) = heightCrossH b c := by
  cases hy : c.size_hint_y with
  | none => simp [widthCrossV, heightCrossH, swapChild, hy]
  | some s =>
    by_cases hs : s = 0 <;>
      simp [widthCrossV, heightCrossH, swapChild, swapBox, hy, hs,
        padding_x, padding_y, add_comm]

lemma posHintFold_swap (b : BoxState) (h : ℚ) :
    ∀ (l : List (String × ℚ)) (cy : ℚ),
      posHintFoldV (swapBox b) h cy
          (l.map (fun p => (swapKey p.1, p.2))) =
        posHintFoldH b h cy l := by
  intro l
  induction l with
  | nil => intro cy; rfl
  | cons p rest ih =>
    intro cy
    obtain ⟨key, value⟩ := p
    simp only [List.map_cons]
    rw [posHintFoldV, posHintFoldH]
    have hext : (swapBox b).width - padding_x (swapBox b) =
        b.height - padding_y b := by
      rw [padding_x_swapBox]
      rfl
    have hstep :
        (if swapKey key = "x" then
          cy + value * ((swapBox b).width - padding_x (swapBox b))
         else if swapKey key = "right" then
          cy + value * ((swapBox b).width - padding_x (swapBox b)) - h
         else if swapKey key = "center_x" then
          cy + value * ((swapBox b).width - padding_x (swapBox b)) - h / 2
         else cy) =
        (if key = "y" then cy + value * (b.height - padding_y b)
         else if key = "top" then cy + value * (b.height - padding_y b) - h
         else if key = "center_y" then
          cy + value * (b.height - padding_y b) - h / 2
         else cy) := by
      rw [hext]
      by_cases h1 : key = "y"
      · subst h1
        rw [show swapKey "y" = "x" by decide, if_pos rfl, if_pos rfl]
      · by_cases h2 : key = "top"
        · subst h2
          rw [show swapKey "top" = "right" by decide,
            if_neg (by decide), if_pos rfl, if_neg (by decide), if_pos rfl]
        · by_cases h3 : key = "center_y"
          · subst h3
            rw [show swapKey "center_y" = "center_x" by decide,
              if_neg (by decide), if_neg (by decide), if_pos rfl,
              if_neg (by decide), if_neg (by decide), if_pos rfl]
          · by_cases h4 : key = "x"
            · subst h4
              rw [show swapKey "x" = "y" by decide,
                if_neg (by decide), if_neg (by decide), if_neg (by decide),
                if_neg (by decide), if_neg (by decide), if_neg (by decide)]
            · by_cases h5 : key = "right"
              · subst h5
                rw [show swapKey "right" = "top" by decide,
                  if_neg (by decide), if_neg (by decide),
                  if_neg (by decide), if_neg (by decide),
                  if_neg (by decide), if_neg (by decide)]
              · by_cases h6 : key = "center_x"
                · subst h6
                  rw [show swapKey "center_x" = "center_y" by decide,
                    if_neg (by decide), if_neg (by decide),
                    if_neg (by decide), if_neg (by decide),
                    if_neg (by decide), if_neg (by decide)]
                · have hk : swapKey key = key := by
                    simp [swapKey, h1, h2, h3, h4, h5, h6]
                  rw [hk, if_neg h4, if_neg h5, if_neg h6,
                    if_neg h1, if_neg h2, if_neg h3]
    rw [hstep]
    exact ih _

lemma placeLoop_swap (b : BoxState) (ss sw : ℚ) (n : Nat) :
    ∀ (l : List Child) (x : ℚ) (i : Nat), i + l.length ≤ n →
      placeLoopV (swapBox b) ss sw (l.map swapChild) x i =
        Option.map (List.map (swapGeom n)) (placeLoopH b ss sw n l x i) := by
  intro l
  induction l with
  | nil => intro x i _; rfl
  | cons c rest ih =>
    intro x i hin
    simp only [List.map_cons]
    rw [placeLoopV, placeLoopH, heightMainV_swapChild]
    cases hw : widthMainH ss sw c with
    | none => simp
    | some w =>
      simp only
      have hsp : (swapBox b).spacing = b.spacing := rfl
      rw [hsp]
      rw [ih (x + w + b.spacing) (i + 1) (by simp at hin ⊢; omega)]
      cases hrest : placeLoopH b ss sw n rest (x + w + b.spacing) (i + 1) with
      | none => simp
      | some tail =>
        simp only [Option.map_some']
        have hidx : i = n - (n - i - 1) - 1 := by
          simp only [List.length_cons] at hin
          omega
        have hcx : posHintFoldV (swapBox b)
            (widthCrossV (swapBox b) (swapChild c))
            ((swapBox b).x + (swapBox b).padding_left)
            (swapChild c).pos_hint =
            posHintFoldH b (heightCrossH b c) (b.y + b.padding_bottom)
              c.pos_hint := by
          rw [widthCrossV_swapChild]
          exact posHintFold_swap b (heightCrossH b c) c.pos_hint
            (b.y + b.padding_bottom)
        simp only [List.map_cons, swapGeom]
        rw [hcx, widthCrossV_swapChild]
        have hy2 : (swapBox b).y = b.x := rfl
        rw [hy2, ← hidx]

/-- C5 (amended): orientation symmetry holds once the children list is
also reversed.  For a horizontal layout, swapping the orientation,
axis-swapping the container (position, extent, paddings) and every
child's fixed size, hints and `pos_hint` keys, and reversing the
children list, yields the axis-swapped image of the original geometry
stream: the `k`-th emitted vertical entry is the axis swap of the `k`-th
emitted horizontal entry — the same child, whose index tag `j` becomes
`n - 1 - j` — and the minimum size is the swapped pair.  Without the
reversal the per-index offsets differ (see the counterexample). -/
theorem C5_orientation_symmetry (b : BoxState) (cs : List Child)
    (horient : b.orientation = Orient.horizontal) :
    (iterate_layout (swapBox b) ((cs.map swapChild).reverse)).1 =
      Prod.swap (iterate_layout b cs).1 ∧
    (iterate_layout (swapBox b) ((cs.map swapChild).reverse)).2 =
      Option.map (List.map (swapGeom cs.length)) (iterate_layout b cs).2 := by
  have hor2 : (swapBox b).orientation = Orient.vertical := rfl
  have hmin := minimums_swap b cs
  constructor
  · simp only [iterate_layout, hor2, horient, hmin]
    rfl
  · simp only [iterate_layout, hor2, horient, hmin]
    have hh : (swapBox b).height = b.width := rfl
    have hpb : (swapBox b).padding_bottom = b.padding_left := rfl
    have hmap : (cs.map swapChild).reverse = cs.reverse.map swapChild := by
      rw [List.map_reverse]
    rw [hh, hpb, hmap]
    exact placeLoop_swap b (max 0 (b.width - (minimumsH b cs).1))
      (minimumsH b cs).2.2 cs.length cs.reverse b.padding_left 0
      (by simp)

def c5box : BoxState := ⟨1, 2, 3, 4, 5, Orient.horizontal, 6, 7, 100, 90⟩

def c5cs : List Child :=
  [⟨10, 1, none, some (1/2), [("top", 1/4)]⟩, ⟨20, 2, some 3, none, []⟩]

theorem C5_orientation_symmetry_witness :
    (iterate_layout (swapBox c5box) ((c5cs.map swapChild).reverse)).1 =
      Prod.swap (iterate_layout c5box c5cs).1 ∧
    (iterate_layout (swapBox c5box) ((c5cs.map swapChild).reverse)).2 =
      Option.map (List.map (swapGeom c5cs.length))
        (iterate_layout c5box c5cs).2 :=
  C5_orientation_symmetry c5box c5cs rfl

end BoxLayout
